import Mathlib

/-!
Verification of the outline-tree subsystem of `src/vesper/screens/outliner.py`
(the `OutlinerView` class): data model `OutlineItem`, the structural editing
operations (`action_indent`, `action_outdent`, `action_move_up`,
`action_move_down`, `_add_child_worker`), persistence (`_save_outline`,
`_load_outline`, `_hydrate`, `_seed_bme`, `on_mount`) and the board projection
(`_flatten`, `_rebuild_grid`, `_preview`).

The widget tree is modelled as the list of the root's children (a forest of
`OutlineItem`); a selected node is addressed by the path `pp` of child indices
leading to its parent's children list, together with its index `i` in that
list.  `_level_of` of a node addressed by `(pp, i)` is `pp.length + 1`.
-/

/-- The `OutlineItem` dataclass of the source: id, title, kind
("beat" | "chapter" | "milestone"), ordered children, and the four
milestone metadata fields. -/
structure OutlineItem where
  id : String
  title : String
  kind : String
  children : List OutlineItem
  plot : String
  subplot : String
  character : String
  theme : String
deriving Repr

/-- `_kind_for_level`: `{1: "beat", 2: "chapter", 3: "milestone"}.get(level)`. -/
def kind_for_level (level : Nat) : Option String :=
  if level = 1 then some "beat"
  else if level = 2 then some "chapter"
  else if level = 3 then some "milestone"
  else none

/-- Replace the element at index `k` (no-op when out of range), as the live
widget-node updates do. -/
def modifyIdx {α : Type} : List α → Nat → (α → α) → List α
  | [], _, _ => []
  | a :: as, 0, f => f a :: as
  | a :: as, Nat.succ n, f => a :: modifyIdx as n f

/-- Swap the elements at positions `k` and `k+1` (no-op when out of range):
the sibling-swap performed by `action_move_up` / `action_move_down`. -/
def swapAdj {α : Type} (l : List α) (k : Nat) : List α :=
  match l.get? k, l.get? (k + 1) with
  | some a, some b => (l.set k b).set (k + 1) a
  | _, _ => l

/-- The children list found at path `pp` from the root (the root's own
children for `pp = []`). -/
def childrenAt : List OutlineItem → List Nat → Option (List OutlineItem)
  | cs, [] => some cs
  | cs, j :: rest =>
    match cs.get? j with
    | some it => childrenAt it.children rest
    | none => none

/-- Replace the children list at path `pp` (identity when the path is
invalid). -/
def setChildrenAt : List OutlineItem → List Nat → List OutlineItem → List OutlineItem
  | _, [], new => new
  | cs, j :: rest, new =>
    modifyIdx cs j (fun it => { it with children := setChildrenAt it.children rest new })

/-- The node selected by parent path `pp` and sibling index `i`. -/
def selNode (forest : List OutlineItem) (pp : List Nat) (i : Nat) : Option OutlineItem :=
  match childrenAt forest pp with
  | some sibs => sibs.get? i
  | none => none

/-- Result of one editor action: the root's children after the action, the
`notify` message it emitted (if any), and whether `_save_outline` ran. -/
structure OpOutcome where
  forest : List OutlineItem
  notice : Option String
  saved : Bool
deriving Repr

/-- `action_indent`: no-op without a previous sibling; "Max depth is 3" when
`_level_of(prev) + 1 > 3`; otherwise the node (cloned with its whole subtree
by `_clone_subtree`) is removed and appended as the last child of the
previous sibling. -/
def action_indent (forest : List OutlineItem) (pp : List Nat) (i : Nat) : OpOutcome :=
  match childrenAt forest pp with
  | none => ⟨forest, none, false⟩
  | some sibs =>
    match sibs.get? i with
    | none => ⟨forest, none, false⟩
    | some node =>
      if i = 0 then ⟨forest, none, false⟩
      else if pp.length + 1 + 1 > 3 then ⟨forest, some "Max depth is 3", false⟩
      else
        let sibs1 := sibs.eraseIdx i
        let sibs2 := modifyIdx sibs1 (i - 1)
          (fun prev => { prev with children := prev.children ++ [node] })
        ⟨setChildrenAt forest pp sibs2, none, true⟩

/-- `action_outdent`: no-op when the parent has no parent (the node is a
top-level beat); otherwise the node's subtree is cloned, removed from its
parent, and `_attach_subtree(grand, cloned)` appends it as the LAST child of
the grandparent. -/
def action_outdent (forest : List OutlineItem) (pp : List Nat) (i : Nat) : OpOutcome :=
  match pp.getLast? with
  | none => ⟨forest, none, false⟩
  | some j =>
    let gp := pp.dropLast
    match childrenAt forest gp with
    | none => ⟨forest, none, false⟩
    | some gcs =>
      match gcs.get? j with
      | none => ⟨forest, none, false⟩
      | some par =>
        match par.children.get? i with
        | none => ⟨forest, none, false⟩
        | some node =>
          let gcs1 := modifyIdx gcs j
            (fun p => { p with children := p.children.eraseIdx i })
          ⟨setChildrenAt forest gp (gcs1 ++ [node]), none, true⟩

/-- `action_move_up`: swap with the previous sibling when `idx > 0`;
when already first, detach and append as the last child of the parent's
previous sibling; no-op when the parent is the root or has no previous
sibling. -/
def action_move_up (forest : List OutlineItem) (pp : List Nat) (i : Nat) : OpOutcome :=
  match childrenAt forest pp with
  | none => ⟨forest, none, false⟩
  | some sibs =>
    match sibs.get? i with
    | none => ⟨forest, none, false⟩
    | some node =>
      if 0 < i then
        ⟨setChildrenAt forest pp (swapAdj sibs (i - 1)), none, true⟩
      else
        match pp.getLast? with
        | none => ⟨forest, none, false⟩
        | some j =>
          if j = 0 then ⟨forest, none, false⟩
          else
            let gp := pp.dropLast
            match childrenAt forest gp with
            | none => ⟨forest, none, false⟩
            | some gcs =>
              let gcs1 := modifyIdx gcs j
                (fun p => { p with children := p.children.eraseIdx i })
              let gcs2 := modifyIdx gcs1 (j - 1)
                (fun p => { p with children := p.children ++ [node] })
              ⟨setChildrenAt forest gp gcs2, none, true⟩

/-- `action_move_down`: swap with the next sibling when `idx < len(sibs)-1`;
when already last, detach and insert as the FIRST child of the parent's next
sibling; no-op when the parent is the root or has no next sibling. -/
def action_move_down (forest : List OutlineItem) (pp : List Nat) (i : Nat) : OpOutcome :=
  match childrenAt forest pp with
  | none => ⟨forest, none, false⟩
  | some sibs =>
    match sibs.get? i with
    | none => ⟨forest, none, false⟩
    | some node =>
      if i < sibs.length - 1 then
        ⟨setChildrenAt forest pp (swapAdj sibs i), none, true⟩
      else
        match pp.getLast? with
        | none => ⟨forest, none, false⟩
        | some j =>
          let gp := pp.dropLast
          match childrenAt forest gp with
          | none => ⟨forest, none, false⟩
          | some gcs =>
            match gcs.get? (j + 1) with
            | none => ⟨forest, none, false⟩
            | some _ =>
              let gcs1 := modifyIdx gcs j
                (fun p => { p with children := p.children.eraseIdx i })
              let gcs2 := modifyIdx gcs1 (j + 1)
                (fun p => { p with children := node :: p.children })
              ⟨setChildrenAt forest gp gcs2, none, true⟩

/-- The modal input of `_add_child_worker` after the prompt resolves:
title plus the milestone fields (`PathPrompt` supplies only a title; the
metadata entries are then empty as in `OutlineItem.new(title, kind)`). -/
structure NewItemInput where
  title : String
  plot : String
  subplot : String
  character : String
  theme : String
deriving Repr

/-- `_add_child_worker`: `level = _level_of(node) + 1`; when `level > 3`
notify "Max depth is 3" and abort; when the kind is defined and the modal
returns a non-falsy title, a fresh node (id `freshId`, as `OutlineItem.new`
draws from `uuid4`) is appended as the last child of the selected node.
`input = none` is a cancelled modal. -/
def add_child_worker (freshId : String) (forest : List OutlineItem)
    (pp : List Nat) (i : Nat) (input : Option NewItemInput) : OpOutcome :=
  match selNode forest pp i with
  | none => ⟨forest, none, false⟩
  | some _ =>
    if pp.length + 1 + 1 > 3 then ⟨forest, some "Max depth is 3", false⟩
    else
      match kind_for_level (pp.length + 1 + 1) with
      | none => ⟨forest, none, false⟩
      | some kd =>
        match input with
        | none => ⟨forest, none, false⟩
        | some f =>
          if f.title = "" then ⟨forest, none, false⟩
          else
            let item : OutlineItem :=
              ⟨freshId, f.title, kd, [], f.plot, f.subplot, f.character, f.theme⟩
            match childrenAt forest (pp ++ [i]) with
            | none => ⟨forest, none, false⟩
            | some cs => ⟨setChildrenAt forest (pp ++ [i]) (cs ++ [item]), none, true⟩

/-- Pre-order ids of a forest (document order). -/
def idsOfList : List OutlineItem → List String
  | [] => []
  | ⟨idv, _, _, cs, _, _, _, _⟩ :: rest => idv :: (idsOfList cs ++ idsOfList rest)

/-- Bool check that every node of the forest rooted at depth `d` satisfies
the spec's depth-to-kind law `kind = kind_for_level depth` and `depth ≤ 3`. -/
def kindDepthOk : Nat → List OutlineItem → Bool
  | _, [] => true
  | d, ⟨_, _, kd, cs, _, _, _, _⟩ :: rest =>
    decide (kind_for_level d = some kd)
      && kindDepthOk (d + 1) cs && kindDepthOk d rest

/-- Bool check that no node of the forest rooted at depth `d` sits deeper
than depth 3. -/
def depthOk : Nat → List OutlineItem → Bool
  | _, [] => true
  | d, ⟨_, _, _, cs, _, _, _, _⟩ :: rest =>
    decide (d ≤ 3) && depthOk (d + 1) cs && depthOk d rest

/-- A persisted JSON record as read by `_hydrate`: each scalar field is
`some v` when the key is present (`none` when missing); a missing
`children` key behaves exactly like an empty list (`data.get("children",
[])`), so children are kept as a plain list. -/
structure JRec where
  jid : Option String
  jtitle : Option String
  jkind : Option String
  jplot : Option String
  jsubplot : Option String
  jcharacter : Option String
  jtheme : Option String
  jchildren : List JRec
deriving Repr

/-- `_save_outline`'s payload: `asdict` emits every field of every node. -/
def serializeList : List OutlineItem → List JRec
  | [] => []
  | ⟨idv, t, k, cs, p, s, c, th⟩ :: rest =>
    ⟨some idv, some t, some k, some p, some s, some c, some th, serializeList cs⟩
      :: serializeList rest

/-- `_hydrate` over a list of records, threading the fresh-id supply:
`gen n` is the `n`-th `uuid4` draw.  `data.get("id") or str(uuid.uuid4())`
regenerates when the stored id is missing OR falsy (the empty string);
`title` defaults to "Untitled", `kind` to "beat", the milestone fields to
the empty string, only when the key is missing. -/
def hydrateList (gen : Nat → String) : List JRec → Nat → List OutlineItem × Nat
  | [], n => ([], n)
  | ⟨jid, jt, jk, jp, js, jc, jth, jcs⟩ :: rest, n =>
    let idStep : String × Nat :=
      match jid with
      | some s => if s = "" then (gen n, n + 1) else (s, n)
      | none => (gen n, n + 1)
    let cstep := hydrateList gen jcs idStep.2
    let it : OutlineItem :=
      ⟨idStep.1, jt.getD "Untitled", jk.getD "beat", cstep.1,
        jp.getD "", js.getD "", jc.getD "", jth.getD ""⟩
    let rstep := hydrateList gen rest cstep.2
    (it :: rstep.1, rstep.2)

/-- The observable states of the backing `outline.json` file: absent,
present but not parseable as the expected JSON shape, or parsed into a
list of records. -/
inductive FileState where
  | missing
  | unparseable
  | parsed (recs : List JRec)
deriving Repr

/-- `_load_outline`: `None` when the file does not exist; `None` when
reading/parsing raises (`except Exception: return None`); otherwise the
hydrated records. -/
def load_outline (gen : Nat → String) (fs : FileState) (n : Nat) :
    Option (List OutlineItem) :=
  match fs with
  | FileState.missing => none
  | FileState.unparseable => none
  | FileState.parsed recs => some (hydrateList gen recs n).1

/-- `_seed_bme`: three fresh beats titled Beginning / Middle / End. -/
def seed_bme (gen : Nat → String) (n : Nat) : List OutlineItem :=
  [⟨gen n, "Beginning", "beat", [], "", "", "", ""⟩,
   ⟨gen (n + 1), "Middle", "beat", [], "", "", "", ""⟩,
   ⟨gen (n + 2), "End", "beat", [], "", "", "", ""⟩]

/-- `on_mount` / `reload_outline_from_disk`:
`items = self._load_outline() or self._seed_bme()` — Python `or` falls
through to the seed both when load returned `None` and when it returned a
falsy empty list. -/
def on_mount_items (gen : Nat → String) (fs : FileState) (n : Nat) :
    List OutlineItem :=
  match load_outline gen fs n with
  | none => seed_bme gen n
  | some items => if items.isEmpty then seed_bme gen n else items

/-- Python `str.strip()` on a character list. -/
def stripChars (cs : List Char) : List Char :=
  ((cs.dropWhile fun c => c.isWhitespace).reverse.dropWhile
    fun c => c.isWhitespace).reverse

/-- `_preview(text, max_chars)`: "" for falsy text; otherwise newlines are
replaced by spaces, the result is stripped, and anything longer than
`max_chars` is cut to `max_chars - 1` characters plus a "…". -/
def preview_fn (text : String) (maxChars : Nat) : String :=
  if text = "" then ""
  else
    let t := stripChars (text.toList.map fun c => if c = '\n' then ' ' else c)
    if t.length ≤ maxChars then String.mk t
    else String.mk (t.take (maxChars - 1)) ++ "…"

/-- `_flatten`: the walk appends each non-root node's data before
recursing into its children, top-level nodes in order. -/
def flattenList : List OutlineItem → List OutlineItem
  | [] => []
  | ⟨idv, t, k, cs, p, s, c, th⟩ :: rest =>
    ⟨idv, t, k, cs, p, s, c, th⟩ :: (flattenList cs ++ flattenList rest)

/-- One row of the board grid: the four preview columns. -/
abbrev GridRow := String × String × String × String

/-- `_rebuild_grid`: iterate `_flatten()`, appending each item's id to
`_grid_index` and a row to the grid — previews of the four milestone
fields (widths from `GRID_COL_WIDTHS = (36, 36, 36, 36)`) for milestones,
four empty strings otherwise. -/
def rebuild_grid (forest : List OutlineItem) : List String × List GridRow :=
  (flattenList forest).foldl
    (fun acc item =>
      (acc.1 ++ [item.id],
       acc.2 ++ [if item.kind = "milestone" then
           (preview_fn item.plot 36, preview_fn item.subplot 36,
            preview_fn item.character 36, preview_fn item.theme 36)
         else ("", "", "", "")]))
    ([], [])

/- ## List utilities -/

theorem get?_append_length {α : Type} (xs : List α) (a : α) (ys : List α) :
    (xs ++ a :: ys).get? xs.length = some a := by
  induction xs with
  | nil => rfl
  | cons x xs ih => simpa using ih

theorem eraseIdx_append_length {α : Type} (xs : List α) (a : α) (ys : List α) :
    (xs ++ a :: ys).eraseIdx xs.length = xs ++ ys := by
  induction xs with
  | nil => rfl
  | cons x xs ih => simpa using ih

theorem modifyIdx_append_length {α : Type} (xs : List α) (a : α) (ys : List α)
    (f : α → α) : modifyIdx (xs ++ a :: ys) xs.length f = xs ++ f a :: ys := by
  induction xs with
  | nil => rfl
  | cons x xs ih => simpa [modifyIdx] using ih

theorem set_append_length {α : Type} (xs : List α) (a b : α) (ys : List α) :
    (xs ++ a :: ys).set xs.length b = xs ++ b :: ys := by
  induction xs with
  | nil => rfl
  | cons x xs ih => simpa using ih

theorem modifyIdx_length {α : Type} (l : List α) (k : Nat) (f : α → α) :
    (modifyIdx l k f).length = l.length := by
  induction l generalizing k with
  | nil => rfl
  | cons a as ih =>
    cases k with
    | zero => simp [modifyIdx]
    | succ n => simp [modifyIdx, ih]

theorem get?_split {α : Type} {l : List α} {n : Nat} {a : α}
    (h : l.get? n = some a) : ∃ xs ys, l = xs ++ a :: ys ∧ xs.length = n := by
  induction l generalizing n with
  | nil => simp at h
  | cons x xs ih =>
    cases n with
    | zero =>
      rw [List.get?_cons_zero, Option.some.injEq] at h
      exact ⟨[], xs, by simp [h], rfl⟩
    | succ m =>
      rw [List.get?_cons_succ] at h
      obtain ⟨as, bs, hab, hlen⟩ := ih h
      exact ⟨x :: as, bs, by simp [hab], by simp [hlen]⟩

theorem swapAdj_spec {α : Type} (A : List α) (a b : α) (B : List α) :
    swapAdj (A ++ a :: b :: B) A.length = A ++ b :: a :: B := by
  have h1 : (A ++ a :: b :: B).get? A.length = some a := get?_append_length A a (b :: B)
  have h2 : (A ++ a :: b :: B).get? (A.length + 1) = some b := by
    have := get?_append_length (A ++ [a]) b B
    simpa using this
  rw [swapAdj, h1, h2]
  dsimp only
  rw [set_append_length A a b (b :: B)]
  have := set_append_length (A ++ [b]) b a B
  simpa using this

theorem modifyIdx_get?_self {α : Type} (l : List α) (k : Nat) (f : α → α) :
    (modifyIdx l k f).get? k = (l.get? k).map f := by
  induction l generalizing k with
  | nil => cases k <;> rfl
  | cons a as ih =>
    cases k with
    | zero => rfl
    | succ n => simpa [modifyIdx] using ih n

/- ## Pre-order traversals and path update lemmas -/

/-- Pre-order projection of a forest by a per-node function (document
order, the order of `_flatten`). -/
def nodeList {α : Type} (f : OutlineItem → α) : List OutlineItem → List α
  | [] => []
  | ⟨idv, t, k, cs, p, s, c, th⟩ :: rest =>
    f ⟨idv, t, k, cs, p, s, c, th⟩ :: (nodeList f cs ++ nodeList f rest)

theorem nodeList_cons {α : Type} (f : OutlineItem → α) (it : OutlineItem)
    (rest : List OutlineItem) :
    nodeList f (it :: rest) = f it :: (nodeList f it.children ++ nodeList f rest) := by
  cases it
  simp [nodeList]

theorem nodeList_nil {α : Type} (f : OutlineItem → α) : nodeList f [] = [] := by
  simp [nodeList]

theorem nodeList_append {α : Type} (f : OutlineItem → α) (xs ys : List OutlineItem) :
    nodeList f (xs ++ ys) = nodeList f xs ++ nodeList f ys := by
  induction xs with
  | nil => simp [nodeList_nil]
  | cons it rest ih =>
    rw [List.cons_append, nodeList_cons, nodeList_cons, ih]
    simp

theorem idsOfList_eq_nodeList (l : List OutlineItem) :
    idsOfList l = nodeList (fun it => it.id) l := by
  induction l using idsOfList.induct with
  | case1 => simp [idsOfList, nodeList_nil]
  | case2 idv t k cs p s c th rest ihc ihr =>
    rw [idsOfList, nodeList_cons, ihc, ihr]

theorem childrenAt_setChildrenAt :
    ∀ (pp : List Nat) (forest cs cs' : List OutlineItem),
      childrenAt forest pp = some cs →
      childrenAt (setChildrenAt forest pp cs') pp = some cs' := by
  intro pp
  induction pp with
  | nil =>
    intro forest cs cs' _
    rfl
  | cons j rest ih =>
    intro forest cs cs' hc
    simp only [childrenAt] at hc
    cases hj : forest.get? j with
    | none => rw [hj] at hc; simp at hc
    | some it =>
      rw [hj] at hc
      simp only [setChildrenAt, childrenAt]
      have hm : (modifyIdx forest j
          (fun n => { n with children := setChildrenAt n.children rest cs' })).get? j
          = some { it with children := setChildrenAt it.children rest cs' } := by
        rw [modifyIdx_get?_self, hj]
        rfl
      rw [hm]
      exact ih it.children cs cs' hc

theorem childrenAt_append_path :
    ∀ (pp : List Nat) (forest cs : List OutlineItem) (qq : List Nat),
      childrenAt forest pp = some cs →
      childrenAt forest (pp ++ qq) = childrenAt cs qq := by
  intro pp
  induction pp with
  | nil =>
    intro forest cs qq hc
    simp only [childrenAt, Option.some.injEq] at hc
    subst hc
    rfl
  | cons j rest ih =>
    intro forest cs qq hc
    simp only [childrenAt] at hc
    cases hj : forest.get? j with
    | none => rw [hj] at hc; simp at hc
    | some it =>
      rw [hj] at hc
      rw [List.cons_append]
      simp only [childrenAt]
      rw [hj]
      exact ih it.children cs qq hc

/-- Replacing the children list at a path with one whose projected entries
form a superset preserves membership of every projected entry of the whole
forest, for any projection that ignores the `children` field. -/
theorem nodeList_sub_setChildrenAt {α : Type} (f : OutlineItem → α)
    (hf : ∀ (it : OutlineItem) (cs2 : List OutlineItem),
      f { it with children := cs2 } = f it) :
    ∀ (pp : List Nat) (forest cs cs' : List OutlineItem),
      childrenAt forest pp = some cs →
      (∀ x, x ∈ nodeList f cs → x ∈ nodeList f cs') →
      ∀ x, x ∈ nodeList f forest → x ∈ nodeList f (setChildrenAt forest pp cs') := by
  intro pp
  induction pp with
  | nil =>
    intro forest cs cs' hc hsub x hx
    simp only [childrenAt, Option.some.injEq] at hc
    subst hc
    exact hsub x hx
  | cons j rest ih =>
    intro forest cs cs' hc hsub x hx
    simp only [childrenAt] at hc
    cases hj : forest.get? j with
    | none => rw [hj] at hc; simp at hc
    | some it =>
      rw [hj] at hc
      obtain ⟨A, B, hAB, hlen⟩ := get?_split hj
      subst hAB
      simp only [setChildrenAt]
      rw [← hlen, modifyIdx_append_length]
      rw [nodeList_append, nodeList_cons] at hx ⊢
      rw [hf]
      simp only [List.mem_append, List.mem_cons] at hx ⊢
      rcases hx with hA | hx
      · exact Or.inl hA
      · rcases hx with hid | hx
        · exact Or.inr (Or.inl hid)
        · rcases hx with hcs | hB
          · exact Or.inr (Or.inr (Or.inl (ih it.children cs cs' hc hsub x hcs)))
          · exact Or.inr (Or.inr (Or.inr hB))

/- ## Explicit runs of the four structural moves -/

theorem indent_run (forest : List OutlineItem) (pp : List Nat)
    (A : List OutlineItem) (prev node : OutlineItem) (B : List OutlineItem)
    (hc : childrenAt forest pp = some (A ++ prev :: node :: B))
    (hd : pp.length < 2) :
    action_indent forest pp (A.length + 1) =
      ⟨setChildrenAt forest pp
        (A ++ { prev with children := prev.children ++ [node] } :: B), none, true⟩ := by
  have hg : (A ++ prev :: node :: B).get? (A.length + 1) = some node := by
    have := get?_append_length (A ++ [prev]) node B
    simpa using this
  have he : (A ++ prev :: node :: B).eraseIdx (A.length + 1) = A ++ prev :: B := by
    have := eraseIdx_append_length (A ++ [prev]) node B
    simpa using this
  have hm : modifyIdx (A ++ prev :: B) (A.length + 1 - 1)
      (fun p => { p with children := p.children ++ [node] })
      = A ++ { prev with children := prev.children ++ [node] } :: B := by
    simpa using modifyIdx_append_length A prev B
      (fun p => { p with children := p.children ++ [node] })
  simp only [action_indent, hc, hg, he, hm]
  rw [if_neg (by omega), if_neg (by omega)]

theorem outdent_run (forest : List OutlineItem) (gp : List Nat)
    (A : List OutlineItem) (par node : OutlineItem) (B C D : List OutlineItem)
    (hc : childrenAt forest gp = some (A ++ par :: B))
    (hpar : par.children = C ++ node :: D) :
    action_outdent forest (gp ++ [A.length]) C.length =
      ⟨setChildrenAt forest gp
        ((A ++ { par with children := C ++ D } :: B) ++ [node]), none, true⟩ := by
  have hlast : (gp ++ [A.length]).getLast? = some A.length := List.getLast?_concat gp
  have hdrop : (gp ++ [A.length]).dropLast = gp := List.dropLast_concat
  have hg : (A ++ par :: B).get? A.length = some par := get?_append_length A par B
  have hn : par.children.get? C.length = some node := by
    rw [hpar]; exact get?_append_length C node D
  have he : par.children.eraseIdx C.length = C ++ D := by
    rw [hpar]; exact eraseIdx_append_length C node D
  have hm : modifyIdx (A ++ par :: B) A.length
      (fun p => { p with children := p.children.eraseIdx C.length })
      = A ++ { par with children := C ++ D } :: B := by
    rw [modifyIdx_append_length]
    rw [he]
  simp only [action_outdent, hlast, hdrop, hc, hg, hn, hm]

theorem move_up_swap (forest : List OutlineItem) (pp : List Nat)
    (A : List OutlineItem) (prev node : OutlineItem) (B : List OutlineItem)
    (hc : childrenAt forest pp = some (A ++ prev :: node :: B)) :
    action_move_up forest pp (A.length + 1) =
      ⟨setChildrenAt forest pp (A ++ node :: prev :: B), none, true⟩ := by
  have hg : (A ++ prev :: node :: B).get? (A.length + 1) = some node := by
    have := get?_append_length (A ++ [prev]) node B
    simpa using this
  have hsw : swapAdj (A ++ prev :: node :: B) (A.length + 1 - 1) = A ++ node :: prev :: B := by
    simpa using swapAdj_spec A prev node B
  simp only [action_move_up, hc, hg, hsw]
  rw [if_pos (by omega)]

theorem move_up_hop (forest : List OutlineItem) (gp : List Nat)
    (A : List OutlineItem) (pv par : OutlineItem) (B : List OutlineItem)
    (node : OutlineItem) (crest : List OutlineItem)
    (hc : childrenAt forest gp = some (A ++ pv :: par :: B))
    (hpar : par.children = node :: crest) :
    action_move_up forest (gp ++ [A.length + 1]) 0 =
      ⟨setChildrenAt forest gp
        (A ++ { pv with children := pv.children ++ [node] }
           :: { par with children := crest } :: B), none, true⟩ := by
  have hgpar : (A ++ pv :: par :: B).get? (A.length + 1) = some par := by
    have := get?_append_length (A ++ [pv]) par B
    simpa using this
  have hcp : childrenAt forest (gp ++ [A.length + 1]) = some par.children := by
    rw [childrenAt_append_path gp forest (A ++ pv :: par :: B) [A.length + 1] hc]
    simp only [childrenAt, hgpar]
  have hg0 : par.children.get? 0 = some node := by rw [hpar]; rfl
  have hlast : (gp ++ [A.length + 1]).getLast? = some (A.length + 1) :=
    List.getLast?_concat gp
  have hdrop : (gp ++ [A.length + 1]).dropLast = gp := List.dropLast_concat
  have hm1 : modifyIdx (A ++ pv :: par :: B) (A.length + 1)
      (fun p => { p with children := p.children.eraseIdx 0 })
      = A ++ pv :: { par with children := crest } :: B := by
    have := modifyIdx_append_length (A ++ [pv]) par B
      (fun p => { p with children := p.children.eraseIdx 0 })
    simp only [hpar] at this
    simpa using this
  have hm2 : modifyIdx (A ++ pv :: { par with children := crest } :: B) (A.length + 1 - 1)
      (fun p => { p with children := p.children ++ [node] })
      = A ++ { pv with children := pv.children ++ [node] }
          :: { par with children := crest } :: B := by
    simpa using modifyIdx_append_length A pv ({ par with children := crest } :: B)
      (fun p => { p with children := p.children ++ [node] })
  simp only [action_move_up, hcp, hg0, hlast, hdrop, hc, hm1, hm2]
  rw [if_neg (by omega), if_neg (by omega)]

theorem move_down_swap (forest : List OutlineItem) (pp : List Nat)
    (A : List OutlineItem) (node nxt : OutlineItem) (B : List OutlineItem)
    (hc : childrenAt forest pp = some (A ++ node :: nxt :: B)) :
    action_move_down forest pp A.length =
      ⟨setChildrenAt forest pp (A ++ nxt :: node :: B), none, true⟩ := by
  have hg : (A ++ node :: nxt :: B).get? A.length = some node :=
    get?_append_length A node (nxt :: B)
  have hsw : swapAdj (A ++ node :: nxt :: B) A.length = A ++ nxt :: node :: B :=
    swapAdj_spec A node nxt B
  have hlt : A.length < (A ++ node :: nxt :: B).length - 1 := by
    simp
  simp only [action_move_down, hc, hg, hsw]
  rw [if_pos hlt]

theorem move_down_hop (forest : List OutlineItem) (gp : List Nat)
    (A : List OutlineItem) (par nx : OutlineItem) (B : List OutlineItem)
    (node : OutlineItem) (C : List OutlineItem)
    (hc : childrenAt forest gp = some (A ++ par :: nx :: B))
    (hpar : par.children = C ++ [node]) :
    action_move_down forest (gp ++ [A.length]) C.length =
      ⟨setChildrenAt forest gp
        (A ++ { par with children := C }
           :: { nx with children := node :: nx.children } :: B), none, true⟩ := by
  have hgpar : (A ++ par :: nx :: B).get? A.length = some par :=
    get?_append_length A par (nx :: B)
  have hcp : childrenAt forest (gp ++ [A.length]) = some par.children := by
    rw [childrenAt_append_path gp forest (A ++ par :: nx :: B) [A.length] hc]
    simp only [childrenAt, hgpar]
  have hgn : par.children.get? C.length = some node := by
    rw [hpar]
    exact get?_append_length C node []
  have hnotlt : ¬ (C.length < par.children.length - 1) := by
    rw [hpar]
    simp
  have hlast : (gp ++ [A.length]).getLast? = some A.length := List.getLast?_concat gp
  have hdrop : (gp ++ [A.length]).dropLast = gp := List.dropLast_concat
  have hgnext : (A ++ par :: nx :: B).get? (A.length + 1) = some nx := by
    have := get?_append_length (A ++ [par]) nx B
    simpa using this
  have hm1 : modifyIdx (A ++ par :: nx :: B) A.length
      (fun p => { p with children := p.children.eraseIdx C.length })
      = A ++ { par with children := C } :: nx :: B := by
    rw [modifyIdx_append_length]
    have : par.children.eraseIdx C.length = C := by
      rw [hpar]
      have := eraseIdx_append_length C node []
      simpa using this
    rw [this]
  have hm2 : modifyIdx (A ++ { par with children := C } :: nx :: B) (A.length + 1)
      (fun p => { p with children := node :: p.children })
      = A ++ { par with children := C }
          :: { nx with children := node :: nx.children } :: B := by
    have := modifyIdx_append_length (A ++ [{ par with children := C }]) nx B
      (fun p => { p with children := node :: p.children })
    simpa using this
  simp only [action_move_down, hcp, hgn, hlast, hdrop, hc, hgnext, hm1, hm2]
  rw [if_neg hnotlt]

theorem move_up_top_first (forest : List OutlineItem) :
    action_move_up forest [] 0 = ⟨forest, none, false⟩ := by
  simp only [action_move_up, childrenAt]
  cases forest.get? 0 <;> simp

theorem move_down_last_child_of_last (forest : List OutlineItem) (j : Nat)
    (par : OutlineItem) (hj : forest.get? j = some par)
    (hlast : forest.length = j + 1) :
    action_move_down forest [j] (par.children.length - 1) = ⟨forest, none, false⟩ := by
  have hcp : childrenAt forest [j] = some par.children := by
    simp only [childrenAt, hj]
  have hnone : forest.get? (j + 1) = none := by
    rw [List.get?_eq_none]
    omega
  simp only [action_move_down, hcp]
  cases hg : par.children.get? (par.children.length - 1) with
  | none => rfl
  | some node =>
    have hlen : ¬ (par.children.length - 1 < par.children.length - 1) := by omega
    simp only [hlen, if_false]
    simp only [List.getLast?_singleton, List.dropLast_single, childrenAt, hnone]

theorem childrenAt_snoc (ps : List Nat) :
    ∀ (forest : List OutlineItem) (j : Nat) (sibs : List OutlineItem),
      childrenAt forest (ps ++ [j]) = some sibs →
      ∃ gcs par, childrenAt forest ps = some gcs ∧ gcs.get? j = some par ∧
        par.children = sibs := by
  induction ps with
  | nil =>
    intro forest j sibs hc
    simp only [List.nil_append, childrenAt] at hc
    cases hj : forest.get? j with
    | none => rw [hj] at hc; simp at hc
    | some it =>
      rw [hj] at hc
      simp only [childrenAt, Option.some.injEq] at hc
      exact ⟨forest, it, rfl, hj, hc⟩
  | cons p rest ih =>
    intro forest j sibs hc
    simp only [List.cons_append, childrenAt] at hc ⊢
    cases hp : forest.get? p with
    | none => rw [hp] at hc; simp at hc
    | some it =>
      rw [hp] at hc
      exact ih it.children j sibs hc

theorem exists_concat_of_length_pos {α : Type} {l : List α} (h : l.length ≠ 0) :
    ∃ A a, l = A ++ [a] ∧ A.length + 1 = l.length := by
  rcases List.eq_nil_or_concat l with h0 | ⟨A, a, hA⟩
  · subst h0; simp at h
  · exact ⟨A, a, by simpa using hA, by simp [hA]⟩

theorem ids_sub_indent {α : Type} (f : OutlineItem → α)
    (hf : ∀ (it : OutlineItem) (cs2 : List OutlineItem),
      f { it with children := cs2 } = f it)
    (forest : List OutlineItem) (pp : List Nat) (i : Nat) :
    ∀ x, x ∈ nodeList f forest → x ∈ nodeList f (action_indent forest pp i).forest := by
  intro x hx
  cases hc : childrenAt forest pp with
  | none => simp only [action_indent, hc]; exact hx
  | some sibs =>
    cases hg : sibs.get? i with
    | none => simp only [action_indent, hc, hg]; exact hx
    | some node =>
      by_cases h0 : i = 0
      · subst h0
        have hrun : action_indent forest pp 0 = ⟨forest, none, false⟩ := by
          simp only [action_indent, hc]
          cases sibs.get? 0 <;> simp
        rw [hrun]
        exact hx
      · by_cases hd : pp.length + 1 + 1 > 3
        · simp only [action_indent, hc, hg, if_neg h0, if_pos hd]; exact hx
        · obtain ⟨X, B, hXB, hXlen⟩ := get?_split hg
          obtain ⟨A, prev, hAp, hAlen⟩ :=
            exists_concat_of_length_pos (l := X) (by omega)
          have hi : i = A.length + 1 := by omega
          subst hi
          have hsibs : sibs = A ++ prev :: node :: B := by
            rw [hXB, hAp]; simp
          rw [hsibs] at hc
          rw [indent_run forest pp A prev node B hc (by omega)]
          refine nodeList_sub_setChildrenAt f hf pp forest _ _ hc ?_ x hx
          intro y hy
          simp only [nodeList_append, nodeList_cons, nodeList_nil, hf,
            List.mem_append, List.mem_cons] at hy ⊢
          tauto

theorem ids_sub_outdent {α : Type} (f : OutlineItem → α)
    (hf : ∀ (it : OutlineItem) (cs2 : List OutlineItem),
      f { it with children := cs2 } = f it)
    (forest : List OutlineItem) (pp : List Nat) (i : Nat) :
    ∀ x, x ∈ nodeList f forest → x ∈ nodeList f (action_outdent forest pp i).forest := by
  intro x hx
  rcases List.eq_nil_or_concat pp with h0 | ⟨ps, j, hps⟩
  · subst h0
    simp only [action_outdent, List.getLast?_nil]
    exact hx
  · subst hps
    rw [List.concat_eq_append]
    have hlast : (ps ++ [j]).getLast? = some j := List.getLast?_concat ps
    have hdrop : (ps ++ [j]).dropLast = ps := List.dropLast_concat
    cases hgc : childrenAt forest ps with
    | none => simp only [action_outdent, hlast, hdrop, hgc]; exact hx
    | some gcs =>
      cases hj : gcs.get? j with
      | none => simp only [action_outdent, hlast, hdrop, hgc, hj]; exact hx
      | some par =>
        cases hi : par.children.get? i with
        | none => simp only [action_outdent, hlast, hdrop, hgc, hj, hi]; exact hx
        | some node =>
          obtain ⟨A, B, hAB, hAlen⟩ := get?_split hj
          obtain ⟨C, D, hCD, hClen⟩ := get?_split hi
          subst hAB
          rw [← hAlen, ← hClen]
          rw [outdent_run forest ps A par node B C D hgc hCD]
          refine nodeList_sub_setChildrenAt f hf ps forest _ _ hgc ?_ x hx
          intro y hy
          simp only [nodeList_append, nodeList_cons, nodeList_nil, hf, hCD,
            List.mem_append, List.mem_cons] at hy ⊢
          tauto

theorem ids_sub_move_up {α : Type} (f : OutlineItem → α)
    (hf : ∀ (it : OutlineItem) (cs2 : List OutlineItem),
      f { it with children := cs2 } = f it)
    (forest : List OutlineItem) (pp : List Nat) (i : Nat) :
    ∀ x, x ∈ nodeList f forest → x ∈ nodeList f (action_move_up forest pp i).forest := by
  intro x hx
  cases hc : childrenAt forest pp with
  | none => simp only [action_move_up, hc]; exact hx
  | some sibs =>
    cases hg : sibs.get? i with
    | none => simp only [action_move_up, hc, hg]; exact hx
    | some node =>
      by_cases h0 : 0 < i
      · obtain ⟨X, B, hXB, hXlen⟩ := get?_split hg
        obtain ⟨A, prev, hAp, hAlen⟩ :=
          exists_concat_of_length_pos (l := X) (by omega)
        have hi : i = A.length + 1 := by omega
        subst hi
        have hsibs : sibs = A ++ prev :: node :: B := by
          rw [hXB, hAp]; simp
        rw [hsibs] at hc
        rw [move_up_swap forest pp A prev node B hc]
        refine nodeList_sub_setChildrenAt f hf pp forest _ _ hc ?_ x hx
        intro y hy
        simp only [nodeList_append, nodeList_cons, nodeList_nil, hf,
          List.mem_append, List.mem_cons] at hy ⊢
        tauto
      · have hi0 : i = 0 := by omega
        subst hi0
        rcases List.eq_nil_or_concat pp with hnil | ⟨ps, j, hps⟩
        · subst hnil
          rw [move_up_top_first forest]
          exact hx
        · subst hps
          rw [List.concat_eq_append] at hc ⊢
          by_cases hj0 : j = 0
          · subst hj0
            have hrun : action_move_up forest (ps ++ [0]) 0 = ⟨forest, none, false⟩ := by
              simp only [action_move_up, hc, hg, List.getLast?_concat]
              simp
            rw [hrun]
            exact hx
          · obtain ⟨gcs, par, hgc, hjpar, hpc⟩ := childrenAt_snoc ps forest j sibs hc
            obtain ⟨X, B, hXB, hXlen⟩ := get?_split hjpar
            obtain ⟨A, pv, hAp, hAlen⟩ :=
              exists_concat_of_length_pos (l := X) (by omega)
            have hj : j = A.length + 1 := by omega
            subst hj
            have hgcs : gcs = A ++ pv :: par :: B := by
              rw [hXB, hAp]; simp
            rw [hgcs] at hgc
            cases hsc : sibs with
            | nil => rw [hsc] at hg; simp at hg
            | cons nd crest =>
              rw [hsc] at hg
              have hnd : nd = node := by simpa using hg
              have hpar : par.children = node :: crest := by rw [hpc, hsc, hnd]
              rw [move_up_hop forest ps A pv par B node crest hgc hpar]
              refine nodeList_sub_setChildrenAt f hf ps forest _ _ hgc ?_ x hx
              intro y hy
              simp only [nodeList_append, nodeList_cons, nodeList_nil, hf, hpar,
                List.mem_append, List.mem_cons] at hy ⊢
              tauto

theorem ids_sub_move_down {α : Type} (f : OutlineItem → α)
    (hf : ∀ (it : OutlineItem) (cs2 : List OutlineItem),
      f { it with children := cs2 } = f it)
    (forest : List OutlineItem) (pp : List Nat) (i : Nat) :
    ∀ x, x ∈ nodeList f forest → x ∈ nodeList f (action_move_down forest pp i).forest := by
  intro x hx
  cases hc : childrenAt forest pp with
  | none => simp only [action_move_down, hc]; exact hx
  | some sibs =>
    cases hg : sibs.get? i with
    | none => simp only [action_move_down, hc, hg]; exact hx
    | some node =>
      obtain ⟨C, D, hCD, hClen⟩ := get?_split hg
      by_cases hlt : i < sibs.length - 1
      · have hD : D ≠ [] := by
          intro h
          rw [hCD, h] at hlt
          simp at hlt
          omega
        cases hDc : D with
        | nil => exact absurd hDc hD
        | cons nxt B =>
          have hsibs : sibs = C ++ node :: nxt :: B := by rw [hCD, hDc]
          rw [hsibs] at hc
          rw [← hClen]
          rw [move_down_swap forest pp C node nxt B hc]
          refine nodeList_sub_setChildrenAt f hf pp forest _ _ hc ?_ x hx
          intro y hy
          simp only [nodeList_append, nodeList_cons, nodeList_nil, hf,
            List.mem_append, List.mem_cons] at hy ⊢
          tauto
      · have hD : D = [] := by
          rw [hCD] at hlt
          simp at hlt
          cases D with
          | nil => rfl
          | cons d ds => exfalso; simp at hlt; omega
        subst hD
        have hsibs : sibs = C ++ [node] := by rw [hCD]
        rcases List.eq_nil_or_concat pp with hnil | ⟨ps, j, hps⟩
        · subst hnil
          have hrun : action_move_down forest [] i = ⟨forest, none, false⟩ := by
            simp only [action_move_down, hc, hg, List.getLast?_nil]
            rw [if_neg hlt]
          rw [hrun]
          exact hx
        · subst hps
          rw [List.concat_eq_append] at hc ⊢
          obtain ⟨gcs, par, hgc, hjpar, hpc⟩ := childrenAt_snoc ps forest j sibs hc
          cases hnx : gcs.get? (j + 1) with
          | none =>
            have hrun : action_move_down forest (ps ++ [j]) i = ⟨forest, none, false⟩ := by
              simp only [action_move_down, hc, hg, List.getLast?_concat,
                List.dropLast_concat, hgc, hnx]
              rw [if_neg hlt]
            rw [hrun]
            exact hx
          | some nx =>
            obtain ⟨A, B2, hAB, hAlen⟩ := get?_split hjpar
            have hB2 : B2.get? 0 = some nx := by
              have : gcs.get? (j + 1) = B2.get? 0 := by
                rw [hAB, ← hAlen]
                have := get?_append_length (A ++ [par]) 
                cases B2 with
                | nil => simp [List.get?_eq_none]
                | cons b bs =>
                  have h2 := get?_append_length (A ++ [par]) b bs
                  simpa using h2
              rw [← this, hnx]
            cases hB2c : B2 with
            | nil => rw [hB2c] at hB2; simp at hB2
            | cons nx2 B =>
              rw [hB2c] at hB2
              have hnx2 : nx2 = nx := by simpa using hB2
              have hgcs : gcs = A ++ par :: nx :: B := by
                rw [hAB, hB2c, hnx2]
              rw [hgcs] at hgc
              have hpar : par.children = C ++ [node] := by rw [hpc, hsibs]
              rw [← hAlen, ← hClen]
              rw [move_down_hop forest ps A par nx B node C hgc hpar]
              refine nodeList_sub_setChildrenAt f hf ps forest _ _ hgc ?_ x hx
              intro y hy
              simp only [nodeList_append, nodeList_cons, nodeList_nil, hf, hpar,
                List.mem_append, List.mem_cons] at hy ⊢
              tauto

/- ## The selected node's whole subtree survives each move verbatim -/

theorem find_after_indent (forest : List OutlineItem) (pp : List Nat) (i : Nat)
    (node : OutlineItem) (h : selNode forest pp i = some node) :
    ∃ qp qi, selNode (action_indent forest pp i).forest qp qi = some node := by
  cases hc : childrenAt forest pp with
  | none => rw [selNode, hc] at h; simp at h
  | some sibs =>
    rw [selNode, hc] at h
    dsimp only at h
    by_cases h0 : i = 0
    · subst h0
      have hrun : action_indent forest pp 0 = ⟨forest, none, false⟩ := by
        simp only [action_indent, hc]
        cases sibs.get? 0 <;> simp
      rw [hrun]
      exact ⟨pp, 0, by rw [selNode, hc]; exact h⟩
    · by_cases hd : pp.length + 1 + 1 > 3
      · have hrun : action_indent forest pp i = ⟨forest, some "Max depth is 3", false⟩ := by
          simp only [action_indent, hc, h, if_neg h0, if_pos hd]
        rw [hrun]
        exact ⟨pp, i, by rw [selNode, hc]; exact h⟩
      · obtain ⟨X, B, hXB, hXlen⟩ := get?_split h
        obtain ⟨A, prev, hAp, hAlen⟩ :=
          exists_concat_of_length_pos (l := X) (by omega)
        have hi : i = A.length + 1 := by omega
        subst hi
        have hsibs : sibs = A ++ prev :: node :: B := by rw [hXB, hAp]; simp
        rw [hsibs] at hc
        rw [indent_run forest pp A prev node B hc (by omega)]
        refine ⟨pp ++ [A.length], prev.children.length, ?_⟩
        have h1 : childrenAt
            (setChildrenAt forest pp (A ++ { prev with children := prev.children ++ [node] } :: B)) pp
            = some (A ++ { prev with children := prev.children ++ [node] } :: B) :=
          childrenAt_setChildrenAt pp forest _ _ hc
        have h2 : childrenAt
            (setChildrenAt forest pp (A ++ { prev with children := prev.children ++ [node] } :: B))
            (pp ++ [A.length])
            = some (prev.children ++ [node]) := by
          rw [childrenAt_append_path pp _ _ [A.length] h1]
          simp only [childrenAt, get?_append_length]
        rw [selNode, h2]
        have := get?_append_length prev.children node []
        simpa using this

theorem find_after_outdent (forest : List OutlineItem) (pp : List Nat) (i : Nat)
    (node : OutlineItem) (h : selNode forest pp i = some node) :
    ∃ qp qi, selNode (action_outdent forest pp i).forest qp qi = some node := by
  rcases List.eq_nil_or_concat pp with h0 | ⟨ps, j, hps⟩
  · subst h0
    have hrun : action_outdent forest [] i = ⟨forest, none, false⟩ := by
      simp [action_outdent]
    rw [hrun]
    exact ⟨[], i, h⟩
  · subst hps
    rw [List.concat_eq_append] at h ⊢
    cases hc : childrenAt forest (ps ++ [j]) with
    | none => rw [selNode, hc] at h; simp at h
    | some sibs =>
      rw [selNode, hc] at h
      dsimp only at h
      obtain ⟨gcs, par, hgc, hjpar, hpc⟩ := childrenAt_snoc ps forest j sibs hc
      obtain ⟨A, B, hAB, hAlen⟩ := get?_split hjpar
      obtain ⟨C, D, hCD, hClen⟩ := get?_split (hpc ▸ h)
      subst hAB
      rw [← hAlen, ← hClen]
      rw [outdent_run forest ps A par node B C D hgc hCD]
      refine ⟨ps, A.length + 1 + B.length, ?_⟩
      have h1 : childrenAt
          (setChildrenAt forest ps ((A ++ { par with children := C ++ D } :: B) ++ [node])) ps
          = some ((A ++ { par with children := C ++ D } :: B) ++ [node]) :=
        childrenAt_setChildrenAt ps forest _ _ hgc
      rw [selNode, h1]
      have hlen : (A ++ { par with children := C ++ D } :: B).length
          = A.length + 1 + B.length := by simp; omega
      have := get?_append_length (A ++ { par with children := C ++ D } :: B) node []
      rw [hlen] at this
      simpa using this

theorem find_after_move_up (forest : List OutlineItem) (pp : List Nat) (i : Nat)
    (node : OutlineItem) (h : selNode forest pp i = some node) :
    ∃ qp qi, selNode (action_move_up forest pp i).forest qp qi = some node := by
  cases hc : childrenAt forest pp with
  | none => rw [selNode, hc] at h; simp at h
  | some sibs =>
    rw [selNode, hc] at h
    dsimp only at h
    by_cases h0 : 0 < i
    · obtain ⟨X, B, hXB, hXlen⟩ := get?_split h
      obtain ⟨A, prev, hAp, hAlen⟩ :=
        exists_concat_of_length_pos (l := X) (by omega)
      have hi : i = A.length + 1 := by omega
      subst hi
      have hsibs : sibs = A ++ prev :: node :: B := by rw [hXB, hAp]; simp
      rw [hsibs] at hc
      rw [move_up_swap forest pp A prev node B hc]
      refine ⟨pp, A.length, ?_⟩
      have h1 : childrenAt (setChildrenAt forest pp (A ++ node :: prev :: B)) pp
          = some (A ++ node :: prev :: B) :=
        childrenAt_setChildrenAt pp forest _ _ hc
      rw [selNode, h1]
      exact get?_append_length A node (prev :: B)
    · have hi0 : i = 0 := by omega
      subst hi0
      rcases List.eq_nil_or_concat pp with hnil | ⟨ps, j, hps⟩
      · subst hnil
        rw [move_up_top_first forest]
        exact ⟨[], 0, by rw [selNode, hc]; exact h⟩
      · subst hps
        rw [List.concat_eq_append] at hc ⊢
        by_cases hj0 : j = 0
        · subst hj0
          have hrun : action_move_up forest (ps ++ [0]) 0 = ⟨forest, none, false⟩ := by
            simp only [action_move_up, hc, h, List.getLast?_concat]
            simp
          rw [hrun]
          exact ⟨ps ++ [0], 0, by rw [selNode, hc]; exact h⟩
        · obtain ⟨gcs, par, hgc, hjpar, hpc⟩ := childrenAt_snoc ps forest j sibs hc
          obtain ⟨X, B, hXB, hXlen⟩ := get?_split hjpar
          obtain ⟨A, pv, hAp, hAlen⟩ :=
            exists_concat_of_length_pos (l := X) (by omega)
          have hj : j = A.length + 1 := by omega
          subst hj
          have hgcs : gcs = A ++ pv :: par :: B := by rw [hXB, hAp]; simp
          rw [hgcs] at hgc
          cases hsc : sibs with
          | nil => rw [hsc] at h; simp at h
          | cons nd crest =>
            rw [hsc] at h
            have hnd : nd = node := by simpa using h
            have hpar : par.children = node :: crest := by rw [hpc, hsc, hnd]
            rw [move_up_hop forest ps A pv par B node crest hgc hpar]
            refine ⟨ps ++ [A.length], pv.children.length, ?_⟩
            have h1 : childrenAt
                (setChildrenAt forest ps
                  (A ++ { pv with children := pv.children ++ [node] }
                     :: { par with children := crest } :: B)) ps
                = some (A ++ { pv with children := pv.children ++ [node] }
                     :: { par with children := crest } :: B) :=
              childrenAt_setChildrenAt ps forest _ _ hgc
            have h2 : childrenAt
                (setChildrenAt forest ps
                  (A ++ { pv with children := pv.children ++ [node] }
                     :: { par with children := crest } :: B))
                (ps ++ [A.length])
                = some (pv.children ++ [node]) := by
              rw [childrenAt_append_path ps _ _ [A.length] h1]
              simp only [childrenAt, get?_append_length]
            rw [selNode, h2]
            have := get?_append_length pv.children node []
            simpa using this

theorem find_after_move_down (forest : List OutlineItem) (pp : List Nat) (i : Nat)
    (node : OutlineItem) (h : selNode forest pp i = some node) :
    ∃ qp qi, selNode (action_move_down forest pp i).forest qp qi = some node := by
  cases hc : childrenAt forest pp with
  | none => rw [selNode, hc] at h; simp at h
  | some sibs =>
    rw [selNode, hc] at h
    dsimp only at h
    obtain ⟨C, D, hCD, hClen⟩ := get?_split h
    by_cases hlt : i < sibs.length - 1
    · have hD : D ≠ [] := by
        intro hD0
        rw [hCD, hD0] at hlt
        simp at hlt
        omega
      cases hDc : D with
      | nil => exact absurd hDc hD
      | cons nxt B =>
        have hsibs : sibs = C ++ node :: nxt :: B := by rw [hCD, hDc]
        rw [hsibs] at hc
        rw [← hClen]
        rw [move_down_swap forest pp C node nxt B hc]
        refine ⟨pp, C.length + 1, ?_⟩
        have h1 : childrenAt (setChildrenAt forest pp (C ++ nxt :: node :: B)) pp
            = some (C ++ nxt :: node :: B) :=
          childrenAt_setChildrenAt pp forest _ _ hc
        rw [selNode, h1]
        have := get?_append_length (C ++ [nxt]) node B
        simpa using this
    · have hD : D = [] := by
        rw [hCD] at hlt
        cases D with
        | nil => rfl
        | cons d ds => exfalso; simp at hlt; omega
      subst hD
      have hsibs : sibs = C ++ [node] := by rw [hCD]
      rcases List.eq_nil_or_concat pp with hnil | ⟨ps, j, hps⟩
      · subst hnil
        have hrun : action_move_down forest [] i = ⟨forest, none, false⟩ := by
          simp only [action_move_down, hc, h, List.getLast?_nil]
          rw [if_neg hlt]
        rw [hrun]
        exact ⟨[], i, by rw [selNode, hc]; exact h⟩
      · subst hps
        rw [List.concat_eq_append] at hc ⊢
        obtain ⟨gcs, par, hgc, hjpar, hpc⟩ := childrenAt_snoc ps forest j sibs hc
        cases hnx : gcs.get? (j + 1) with
        | none =>
          have hrun : action_move_down forest (ps ++ [j]) i = ⟨forest, none, false⟩ := by
            simp only [action_move_down, hc, h, List.getLast?_concat,
              List.dropLast_concat, hgc, hnx]
            rw [if_neg hlt]
          rw [hrun]
          exact ⟨ps ++ [j], i, by rw [selNode, hc]; exact h⟩
        | some nx =>
          obtain ⟨A, B2, hAB, hAlen⟩ := get?_split hjpar
          have hB2 : B2.get? 0 = some nx := by
            have heq : gcs.get? (j + 1) = B2.get? 0 := by
              rw [hAB, ← hAlen]
              cases B2 with
              | nil => simp [List.get?_eq_none]
              | cons b bs =>
                have h2 := get?_append_length (A ++ [par]) b bs
                simpa using h2
            rw [← heq, hnx]
          cases hB2c : B2 with
          | nil => rw [hB2c] at hB2; simp at hB2
          | cons nx2 B =>
            rw [hB2c] at hB2
            have hnx2 : nx2 = nx := by simpa using hB2
            have hgcs : gcs = A ++ par :: nx :: B := by rw [hAB, hB2c, hnx2]
            rw [hgcs] at hgc
            have hpar : par.children = C ++ [node] := by rw [hpc, hsibs]
            rw [← hAlen, ← hClen]
            rw [move_down_hop forest ps A par nx B node C hgc hpar]
            refine ⟨ps ++ [A.length + 1], 0, ?_⟩
            have h1 : childrenAt
                (setChildrenAt forest ps
                  (A ++ { par with children := C }
                     :: { nx with children := node :: nx.children } :: B)) ps
                = some (A ++ { par with children := C }
                     :: { nx with children := node :: nx.children } :: B) :=
              childrenAt_setChildrenAt ps forest _ _ hgc
            have h2 : childrenAt
                (setChildrenAt forest ps
                  (A ++ { par with children := C }
                     :: { nx with children := node :: nx.children } :: B))
                (ps ++ [A.length + 1])
                = some (node :: nx.children) := by
              rw [childrenAt_append_path ps _ _ [A.length + 1] h1]
              have hgn : (A ++ { par with children := C }
                  :: { nx with children := node :: nx.children } :: B).get? (A.length + 1)
                  = some { nx with children := node :: nx.children } := by
                have := get?_append_length (A ++ [{ par with children := C }])
                  { nx with children := node :: nx.children } B
                simpa using this
              simp only [childrenAt, hgn]
            rw [selNode, h2]
            rfl

/- ## Claim theorems -/

/-- C6: `_load_outline` returns `None` both when the backing file is
missing and when its content fails to parse, never an error; the caller
(`on_mount` via `items = load or seed`) then seeds exactly three default
beat nodes titled Beginning, Middle, End, each with no children. -/
theorem C6_load_failure_recovery :
    ∀ (gen : Nat → String) (n : Nat),
      load_outline gen FileState.missing n = none ∧
      load_outline gen FileState.unparseable n = none ∧
      on_mount_items gen FileState.missing n = seed_bme gen n ∧
      on_mount_items gen FileState.unparseable n = seed_bme gen n ∧
      (seed_bme gen n).map (fun it => (it.title, it.kind, it.children)) =
        [("Beginning", "beat", []), ("Middle", "beat", []), ("End", "beat", [])] := by
  intro gen n
  refine ⟨rfl, rfl, rfl, rfl, ?_⟩
  simp [seed_bme]

/-- C10: a backing file holding the empty JSON array is loaded as the
empty list, but Python's `or` treats the empty list like `None`, so
`on_mount` reseeds the three default beats: an outline saved with all
beats deleted does not reload as an empty outline. -/
theorem C10_empty_array_reseeds :
    ∀ (gen : Nat → String) (n : Nat),
      load_outline gen (FileState.parsed []) n = some [] ∧
      on_mount_items gen (FileState.parsed []) n = seed_bme gen n ∧
      (on_mount_items gen (FileState.parsed []) n).map (fun it => (it.title, it.kind)) =
        [("Beginning", "beat"), ("Middle", "beat"), ("End", "beat")] := by
  intro gen n
  refine ⟨?_, ?_, ?_⟩
  · simp [load_outline, hydrateList]
  · simp [on_mount_items, load_outline, hydrateList]
  · simp [on_mount_items, load_outline, hydrateList, seed_bme]

/-- C7: `_add_child_worker` on a node selected at depth 3 (a milestone)
reports "Max depth is 3" and terminates with the tree unchanged and
nothing persisted, whatever the modal would return. -/
theorem C7_add_child_max_depth (freshId : String) (forest : List OutlineItem)
    (pp : List Nat) (i : Nat) (input : Option NewItemInput) (node : OutlineItem)
    (hsel : selNode forest pp i = some node) (hdepth : pp.length = 2) :
    add_child_worker freshId forest pp i input = ⟨forest, some "Max depth is 3", false⟩ := by
  simp only [add_child_worker, hsel]
  rw [if_pos (by omega)]

/-- C7 witness: the guard fires on a concrete milestone selection. -/
theorem C7_add_child_max_depth_witness :
    add_child_worker "new" 
      [⟨"b", "B", "beat",
        [⟨"c", "C", "chapter",
          [⟨"m", "M", "milestone", [], "", "", "", ""⟩], "", "", "", ""⟩],
        "", "", "", ""⟩]
      [0, 0] 0 (some ⟨"T", "", "", "", ""⟩) =
      ⟨[⟨"b", "B", "beat",
        [⟨"c", "C", "chapter",
          [⟨"m", "M", "milestone", [], "", "", "", ""⟩], "", "", "", ""⟩],
        "", "", "", ""⟩], some "Max depth is 3", false⟩ :=
  C7_add_child_max_depth "new" _ [0, 0] 0 _
    ⟨"m", "M", "milestone", [], "", "", "", ""⟩ rfl rfl

/-- C2 (amended): with a previous sibling present, `action_indent` aborts
with the "Max depth is 3" notice exactly when the selected node itself
sits at depth 3 (`_level_of(prev) + 1 > 3` tests only the moved node);
otherwise it mutates and saves — the guard never inspects the moved
node's descendants, which may end up deeper than 3. -/
theorem C2_indent_depth_guard (forest : List OutlineItem) (pp : List Nat) (i : Nat)
    (sibs : List OutlineItem) (node : OutlineItem)
    (hc : childrenAt forest pp = some sibs) (hg : sibs.get? i = some node)
    (h0 : i ≠ 0) :
    (2 ≤ pp.length →
      action_indent forest pp i = ⟨forest, some "Max depth is 3", false⟩) ∧
    (pp.length < 2 →
      (action_indent forest pp i).notice = none ∧
      (action_indent forest pp i).saved = true) := by
  constructor
  · intro hd
    simp only [action_indent, hc, hg, if_neg h0]
    rw [if_pos (by omega)]
  · intro hd
    obtain ⟨X, B, hXB, hXlen⟩ := get?_split hg
    obtain ⟨A, prev, hAp, hAlen⟩ := exists_concat_of_length_pos (l := X) (by omega)
    have hi : i = A.length + 1 := by omega
    subst hi
    have hsibs : sibs = A ++ prev :: node :: B := by rw [hXB, hAp]; simp
    rw [hsibs] at hc
    rw [indent_run forest pp A prev node B hc hd]
    exact ⟨rfl, rfl⟩

/-- Chapter `c2` (which carries milestone `m`) has previous sibling `c1`:
indenting it is allowed by the guard yet pushes `m` to depth 4. -/
def c2Forest : List OutlineItem :=
  [⟨"b", "B", "beat",
    [⟨"c1", "C1", "chapter", [], "", "", "", ""⟩,
     ⟨"c2", "C2", "chapter",
       [⟨"m", "M", "milestone", [], "", "", "", ""⟩], "", "", "", ""⟩],
    "", "", "", ""⟩]

/-- C2 counterexample: indenting chapter `c2` under `c1` mutates and saves
without any notice, and the resulting tree has a node at depth 4 — the
"max depth" abort does not consider the moved subtree's descendants. -/
theorem C2_counterexample :
    depthOk 1 c2Forest = true ∧
    (action_indent c2Forest [0] 1).notice = none ∧
    (action_indent c2Forest [0] 1).saved = true ∧
    depthOk 1 (action_indent c2Forest [0] 1).forest = false := by
  refine ⟨?_, rfl, rfl, ?_⟩
  · simp [c2Forest, depthOk]
  · have hres : (action_indent c2Forest [0] 1).forest =
        [⟨"b", "B", "beat",
          [⟨"c1", "C1", "chapter",
            [⟨"c2", "C2", "chapter",
              [⟨"m", "M", "milestone", [], "", "", "", ""⟩], "", "", "", ""⟩],
            "", "", "", ""⟩],
          "", "", "", ""⟩] := rfl
    rw [hres]
    simp [depthOk]

/-- C2 witness: the abort branch on a depth-3 selection with a previous
sibling, and the mutating branch on a depth-2 selection. -/
theorem C2_indent_depth_guard_witness :
    action_indent
      [⟨"b", "B", "beat",
        [⟨"c", "C", "chapter",
          [⟨"m1", "M1", "milestone", [], "", "", "", ""⟩,
           ⟨"m2", "M2", "milestone", [], "", "", "", ""⟩], "", "", "", ""⟩],
        "", "", "", ""⟩]
      [0, 0] 1 =
      ⟨[⟨"b", "B", "beat",
        [⟨"c", "C", "chapter",
          [⟨"m1", "M1", "milestone", [], "", "", "", ""⟩,
           ⟨"m2", "M2", "milestone", [], "", "", "", ""⟩], "", "", "", ""⟩],
        "", "", "", ""⟩], some "Max depth is 3", false⟩ ∧
    (action_indent c2Forest [0] 1).notice = none ∧
    (action_indent c2Forest [0] 1).saved = true := by
  refine ⟨?_, ?_⟩
  · exact (C2_indent_depth_guard
      [⟨"b", "B", "beat",
        [⟨"c", "C", "chapter",
          [⟨"m1", "M1", "milestone", [], "", "", "", ""⟩,
           ⟨"m2", "M2", "milestone", [], "", "", "", ""⟩], "", "", "", ""⟩],
        "", "", "", ""⟩]
      [0, 0] 1
      [⟨"m1", "M1", "milestone", [], "", "", "", ""⟩,
       ⟨"m2", "M2", "milestone", [], "", "", "", ""⟩]
      ⟨"m2", "M2", "milestone", [], "", "", "", ""⟩ rfl rfl (by decide)).1 (by decide)
  · exact (C2_indent_depth_guard c2Forest [0] 1
      [⟨"c1", "C1", "chapter", [], "", "", "", ""⟩,
       ⟨"c2", "C2", "chapter",
         [⟨"m", "M", "milestone", [], "", "", "", ""⟩], "", "", "", ""⟩]
      ⟨"c2", "C2", "chapter",
        [⟨"m", "M", "milestone", [], "", "", "", ""⟩], "", "", "", ""⟩
      rfl rfl (by decide)).2 (by decide)

/-- Pre-order (id, kind) pairs of a forest. -/
def idKindsOfList (l : List OutlineItem) : List (String × String) :=
  nodeList (fun it => (it.id, it.kind)) l

/-- The spec's concrete scenario tree `[Beginning[Ch1[M1]], Middle, End]`,
with kinds as created (beat / chapter / milestone). -/
def c1Forest : List OutlineItem :=
  [⟨"beg", "Beginning", "beat",
     [⟨"ch1", "Ch1", "chapter",
        [⟨"m1", "M1", "milestone", [], "p", "", "", ""⟩], "", "", "", ""⟩],
     "", "", "", ""⟩,
   ⟨"mid", "Middle", "beat", [], "", "", "", ""⟩,
   ⟨"end", "End", "beat", [], "", "", "", ""⟩]

/-- C1 (amended): the mutating operations never recompute `kind`:
`_clone_subtree` copies it verbatim, so outdent and indent preserve every
(id, kind) pair of the tree; in the spec's scenario, outdenting `Ch1`
appends it at the END of the top level with `Ch1.kind` still `chapter`
and `M1.kind` still `milestone`, so the depth/kind law does not hold
after the move. -/
theorem C1_kinds_preserved_not_recomputed :
    (∀ (forest : List OutlineItem) (pp : List Nat) (i : Nat) (x : String × String),
        x ∈ idKindsOfList forest → x ∈ idKindsOfList (action_outdent forest pp i).forest) ∧
    (∀ (forest : List OutlineItem) (pp : List Nat) (i : Nat) (x : String × String),
        x ∈ idKindsOfList forest → x ∈ idKindsOfList (action_indent forest pp i).forest) ∧
    action_outdent c1Forest [0] 0 =
      ⟨[⟨"beg", "Beginning", "beat", [], "", "", "", ""⟩,
        ⟨"mid", "Middle", "beat", [], "", "", "", ""⟩,
        ⟨"end", "End", "beat", [], "", "", "", ""⟩,
        ⟨"ch1", "Ch1", "chapter",
          [⟨"m1", "M1", "milestone", [], "p", "", "", ""⟩], "", "", "", ""⟩],
       none, true⟩ := by
  refine ⟨?_, ?_, rfl⟩
  · intro forest pp i x hx
    exact ids_sub_outdent (fun it => (it.id, it.kind)) (fun it cs2 => rfl) forest pp i x hx
  · intro forest pp i x hx
    exact ids_sub_indent (fun it => (it.id, it.kind)) (fun it cs2 => rfl) forest pp i x hx

/-- C1 counterexample: the scenario tree satisfies the depth/kind law, the
outdent of `Ch1` mutates and saves, and the resulting tree violates the
law (`Ch1` keeps kind `chapter` at depth 1, `M1` keeps `milestone` at
depth 2). -/
theorem C1_counterexample :
    kindDepthOk 1 c1Forest = true ∧
    (action_outdent c1Forest [0] 0).saved = true ∧
    kindDepthOk 1 (action_outdent c1Forest [0] 0).forest = false := by
  refine ⟨?_, rfl, ?_⟩
  · simp [c1Forest, kindDepthOk, kind_for_level]
  · have hres : (action_outdent c1Forest [0] 0).forest =
        [⟨"beg", "Beginning", "beat", [], "", "", "", ""⟩,
         ⟨"mid", "Middle", "beat", [], "", "", "", ""⟩,
         ⟨"end", "End", "beat", [], "", "", "", ""⟩,
         ⟨"ch1", "Ch1", "chapter",
           [⟨"m1", "M1", "milestone", [], "p", "", "", ""⟩], "", "", "", ""⟩] := rfl
    rw [hres]
    simp [kindDepthOk, kind_for_level]

/-- C1 witness: (id, kind) pairs survive a concrete outdent and a concrete
indent of the scenario tree. -/
theorem C1_kinds_preserved_witness :
    ("ch1", "chapter") ∈ idKindsOfList c1Forest ∧
    ("ch1", "chapter") ∈ idKindsOfList (action_outdent c1Forest [0] 0).forest ∧
    ("mid", "beat") ∈ idKindsOfList (action_indent c1Forest [] 1).forest := by
  have h1 : ("ch1", "chapter") ∈ idKindsOfList c1Forest := by
    simp [c1Forest, idKindsOfList, nodeList]
  have h2 : ("mid", "beat") ∈ idKindsOfList c1Forest := by
    simp [c1Forest, idKindsOfList, nodeList]
  exact ⟨h1, C1_kinds_preserved_not_recomputed.1 c1Forest [0] 0 _ h1,
    C1_kinds_preserved_not_recomputed.2.1 c1Forest [] 1 _ h2⟩

/-- C8: move semantics and boundaries.  With a previous sibling, move-up
swaps the node with it, leaving the other siblings' relative order
unchanged; a first child whose parent has a previous sibling is detached
and appended as the LAST child of that previous sibling; move-down
mirrors this (swap with the next sibling, else prepend as FIRST child of
the parent's next sibling); move-up on the first top-level beat is a
no-op, and move-down on the last child of the last top-level beat is a
no-op. -/
theorem C8_move_semantics :
    (∀ (forest : List OutlineItem) (pp : List Nat) (A : List OutlineItem)
        (prev node : OutlineItem) (B : List OutlineItem),
      childrenAt forest pp = some (A ++ prev :: node :: B) →
      action_move_up forest pp (A.length + 1) =
        ⟨setChildrenAt forest pp (A ++ node :: prev :: B), none, true⟩) ∧
    (∀ (forest : List OutlineItem) (gp : List Nat) (A : List OutlineItem)
        (pv par : OutlineItem) (B : List OutlineItem) (node : OutlineItem)
        (crest : List OutlineItem),
      childrenAt forest gp = some (A ++ pv :: par :: B) →
      par.children = node :: crest →
      action_move_up forest (gp ++ [A.length + 1]) 0 =
        ⟨setChildrenAt forest gp
          (A ++ { pv with children := pv.children ++ [node] }
             :: { par with children := crest } :: B), none, true⟩) ∧
    (∀ forest : List OutlineItem, action_move_up forest [] 0 = ⟨forest, none, false⟩) ∧
    (∀ (forest : List OutlineItem) (pp : List Nat) (A : List OutlineItem)
        (node nxt : OutlineItem) (B : List OutlineItem),
      childrenAt forest pp = some (A ++ node :: nxt :: B) →
      action_move_down forest pp A.length =
        ⟨setChildrenAt forest pp (A ++ nxt :: node :: B), none, true⟩) ∧
    (∀ (forest : List OutlineItem) (gp : List Nat) (A : List OutlineItem)
        (par nx : OutlineItem) (B : List OutlineItem) (node : OutlineItem)
        (C : List OutlineItem),
      childrenAt forest gp = some (A ++ par :: nx :: B) →
      par.children = C ++ [node] →
      action_move_down forest (gp ++ [A.length]) C.length =
        ⟨setChildrenAt forest gp
          (A ++ { par with children := C }
             :: { nx with children := node :: nx.children } :: B), none, true⟩) ∧
    (∀ (forest : List OutlineItem) (j : Nat) (par : OutlineItem),
      forest.get? j = some par → forest.length = j + 1 →
      action_move_down forest [j] (par.children.length - 1) = ⟨forest, none, false⟩) :=
  ⟨move_up_swap, move_up_hop, move_up_top_first, move_down_swap,
    move_down_hop, move_down_last_child_of_last⟩

/-- C8 witness: all six conjuncts exercised on the concrete forest
`[a[c1, c2], b[d1]]`. -/
theorem C8_move_semantics_witness :
    action_move_up
        [⟨"a", "A", "beat",
          [⟨"c1", "C1", "chapter", [], "", "", "", ""⟩,
           ⟨"c2", "C2", "chapter", [], "", "", "", ""⟩], "", "", "", ""⟩,
         ⟨"b", "B", "beat",
          [⟨"d1", "D1", "chapter", [], "", "", "", ""⟩], "", "", "", ""⟩]
        [0] 1 =
      ⟨[⟨"a", "A", "beat",
          [⟨"c2", "C2", "chapter", [], "", "", "", ""⟩,
           ⟨"c1", "C1", "chapter", [], "", "", "", ""⟩], "", "", "", ""⟩,
        ⟨"b", "B", "beat",
          [⟨"d1", "D1", "chapter", [], "", "", "", ""⟩], "", "", "", ""⟩],
       none, true⟩ ∧
    action_move_up
        [⟨"a", "A", "beat",
          [⟨"c1", "C1", "chapter", [], "", "", "", ""⟩,
           ⟨"c2", "C2", "chapter", [], "", "", "", ""⟩], "", "", "", ""⟩,
         ⟨"b", "B", "beat",
          [⟨"d1", "D1", "chapter", [], "", "", "", ""⟩], "", "", "", ""⟩]
        [1] 0 =
      ⟨[⟨"a", "A", "beat",
          [⟨"c1", "C1", "chapter", [], "", "", "", ""⟩,
           ⟨"c2", "C2", "chapter", [], "", "", "", ""⟩,
           ⟨"d1", "D1", "chapter", [], "", "", "", ""⟩], "", "", "", ""⟩,
        ⟨"b", "B", "beat", [], "", "", "", ""⟩],
       none, true⟩ ∧
    action_move_up
        [⟨"a", "A", "beat", [], "", "", "", ""⟩] [] 0 =
      ⟨[⟨"a", "A", "beat", [], "", "", "", ""⟩], none, false⟩ ∧
    action_move_down
        [⟨"a", "A", "beat",
          [⟨"c1", "C1", "chapter", [], "", "", "", ""⟩,
           ⟨"c2", "C2", "chapter", [], "", "", "", ""⟩], "", "", "", ""⟩]
        [0] 0 =
      ⟨[⟨"a", "A", "beat",
          [⟨"c2", "C2", "chapter", [], "", "", "", ""⟩,
           ⟨"c1", "C1", "chapter", [], "", "", "", ""⟩], "", "", "", ""⟩],
       none, true⟩ ∧
    action_move_down
        [⟨"a", "A", "beat",
          [⟨"c1", "C1", "chapter", [], "", "", "", ""⟩,
           ⟨"c2", "C2", "chapter", [], "", "", "", ""⟩], "", "", "", ""⟩,
         ⟨"b", "B", "beat",
          [⟨"d1", "D1", "chapter", [], "", "", "", ""⟩], "", "", "", ""⟩]
        [0] 1 =
      ⟨[⟨"a", "A", "beat",
          [⟨"c1", "C1", "chapter", [], "", "", "", ""⟩], "", "", "", ""⟩,
        ⟨"b", "B", "beat",
          [⟨"c2", "C2", "chapter", [], "", "", "", ""⟩,
           ⟨"d1", "D1", "chapter", [], "", "", "", ""⟩], "", "", "", ""⟩],
       none, true⟩ ∧
    action_move_down
        [⟨"a", "A", "beat",
          [⟨"c1", "C1", "chapter", [], "", "", "", ""⟩], "", "", "", ""⟩,
         ⟨"b", "B", "beat",
          [⟨"d1", "D1", "chapter", [], "", "", "", ""⟩], "", "", "", ""⟩]
        [1] 0 =
      ⟨[⟨"a", "A", "beat",
          [⟨"c1", "C1", "chapter", [], "", "", "", ""⟩], "", "", "", ""⟩,
        ⟨"b", "B", "beat",
          [⟨"d1", "D1", "chapter", [], "", "", "", ""⟩], "", "", "", ""⟩],
       none, false⟩ := by
  refine ⟨?_, ?_, ?_, ?_, ?_, ?_⟩
  · exact C8_move_semantics.1
      [⟨"a", "A", "beat",
        [⟨"c1", "C1", "chapter", [], "", "", "", ""⟩,
         ⟨"c2", "C2", "chapter", [], "", "", "", ""⟩], "", "", "", ""⟩,
       ⟨"b", "B", "beat",
        [⟨"d1", "D1", "chapter", [], "", "", "", ""⟩], "", "", "", ""⟩]
      [0] []
      ⟨"c1", "C1", "chapter", [], "", "", "", ""⟩ ⟨"c2", "C2", "chapter", [], "", "", "", ""⟩ []
      rfl
  · exact C8_move_semantics.2.1
      [⟨"a", "A", "beat",
        [⟨"c1", "C1", "chapter", [], "", "", "", ""⟩,
         ⟨"c2", "C2", "chapter", [], "", "", "", ""⟩], "", "", "", ""⟩,
       ⟨"b", "B", "beat",
        [⟨"d1", "D1", "chapter", [], "", "", "", ""⟩], "", "", "", ""⟩]
      [] []
      ⟨"a", "A", "beat",
        [⟨"c1", "C1", "chapter", [], "", "", "", ""⟩,
         ⟨"c2", "C2", "chapter", [], "", "", "", ""⟩], "", "", "", ""⟩
      ⟨"b", "B", "beat",
        [⟨"d1", "D1", "chapter", [], "", "", "", ""⟩], "", "", "", ""⟩
      [] ⟨"d1", "D1", "chapter", [], "", "", "", ""⟩ [] rfl rfl
  · exact C8_move_semantics.2.2.1 [⟨"a", "A", "beat", [], "", "", "", ""⟩]
  · exact C8_move_semantics.2.2.2.1
      [⟨"a", "A", "beat",
        [⟨"c1", "C1", "chapter", [], "", "", "", ""⟩,
         ⟨"c2", "C2", "chapter", [], "", "", "", ""⟩], "", "", "", ""⟩]
      [0] []
      ⟨"c1", "C1", "chapter", [], "", "", "", ""⟩ ⟨"c2", "C2", "chapter", [], "", "", "", ""⟩ []
      rfl
  · exact C8_move_semantics.2.2.2.2.1
      [⟨"a", "A", "beat",
        [⟨"c1", "C1", "chapter", [], "", "", "", ""⟩,
         ⟨"c2", "C2", "chapter", [], "", "", "", ""⟩], "", "", "", ""⟩,
       ⟨"b", "B", "beat",
        [⟨"d1", "D1", "chapter", [], "", "", "", ""⟩], "", "", "", ""⟩]
      [] []
      ⟨"a", "A", "beat",
        [⟨"c1", "C1", "chapter", [], "", "", "", ""⟩,
         ⟨"c2", "C2", "chapter", [], "", "", "", ""⟩], "", "", "", ""⟩
      ⟨"b", "B", "beat",
        [⟨"d1", "D1", "chapter", [], "", "", "", ""⟩], "", "", "", ""⟩
      [] ⟨"c2", "C2", "chapter", [], "", "", "", ""⟩
      [⟨"c1", "C1", "chapter", [], "", "", "", ""⟩] rfl rfl
  · exact C8_move_semantics.2.2.2.2.2
      [⟨"a", "A", "beat",
        [⟨"c1", "C1", "chapter", [], "", "", "", ""⟩], "", "", "", ""⟩,
       ⟨"b", "B", "beat",
        [⟨"d1", "D1", "chapter", [], "", "", "", ""⟩], "", "", "", ""⟩]
      1
      ⟨"b", "B", "beat",
        [⟨"d1", "D1", "chapter", [], "", "", "", ""⟩], "", "", "", ""⟩
      rfl rfl

/-- C3: identity preservation.  Every id present in the tree is still
present after indent, outdent, move-up or move-down (whether the call
mutates or no-ops), and the selected node's whole subtree — title,
children order, kinds and milestone fields of all descendants — is found
verbatim somewhere in the resulting tree, because `_clone_subtree` copies
every field unchanged. -/
theorem C3_identity_preservation :
    (∀ (forest : List OutlineItem) (pp : List Nat) (i : Nat) (x : String),
        x ∈ idsOfList forest → x ∈ idsOfList (action_indent forest pp i).forest) ∧
    (∀ (forest : List OutlineItem) (pp : List Nat) (i : Nat) (x : String),
        x ∈ idsOfList forest → x ∈ idsOfList (action_outdent forest pp i).forest) ∧
    (∀ (forest : List OutlineItem) (pp : List Nat) (i : Nat) (x : String),
        x ∈ idsOfList forest → x ∈ idsOfList (action_move_up forest pp i).forest) ∧
    (∀ (forest : List OutlineItem) (pp : List Nat) (i : Nat) (x : String),
        x ∈ idsOfList forest → x ∈ idsOfList (action_move_down forest pp i).forest) ∧
    (∀ (forest : List OutlineItem) (pp : List Nat) (i : Nat) (node : OutlineItem),
        selNode forest pp i = some node →
        ∃ qp qi, selNode (action_indent forest pp i).forest qp qi = some node) ∧
    (∀ (forest : List OutlineItem) (pp : List Nat) (i : Nat) (node : OutlineItem),
        selNode forest pp i = some node →
        ∃ qp qi, selNode (action_outdent forest pp i).forest qp qi = some node) ∧
    (∀ (forest : List OutlineItem) (pp : List Nat) (i : Nat) (node : OutlineItem),
        selNode forest pp i = some node →
        ∃ qp qi, selNode (action_move_up forest pp i).forest qp qi = some node) ∧
    (∀ (forest : List OutlineItem) (pp : List Nat) (i : Nat) (node : OutlineItem),
        selNode forest pp i = some node →
        ∃ qp qi, selNode (action_move_down forest pp i).forest qp qi = some node) := by
  refine ⟨?_, ?_, ?_, ?_, find_after_indent, find_after_outdent,
    find_after_move_up, find_after_move_down⟩
  · intro forest pp i x hx
    rw [idsOfList_eq_nodeList] at hx ⊢
    exact ids_sub_indent (fun it => it.id) (fun it cs2 => rfl) forest pp i x hx
  · intro forest pp i x hx
    rw [idsOfList_eq_nodeList] at hx ⊢
    exact ids_sub_outdent (fun it => it.id) (fun it cs2 => rfl) forest pp i x hx
  · intro forest pp i x hx
    rw [idsOfList_eq_nodeList] at hx ⊢
    exact ids_sub_move_up (fun it => it.id) (fun it cs2 => rfl) forest pp i x hx
  · intro forest pp i x hx
    rw [idsOfList_eq_nodeList] at hx ⊢
    exact ids_sub_move_down (fun it => it.id) (fun it cs2 => rfl) forest pp i x hx

/-- Concrete forest `[a, b[c[m]]]` for the C3 witness. -/
def c3Forest : List OutlineItem :=
  [⟨"a", "A", "beat", [], "", "", "", ""⟩,
   ⟨"b", "B", "beat",
     [⟨"c", "C", "chapter",
       [⟨"m", "M", "milestone", [], "pl", "", "", ""⟩], "", "", "", ""⟩],
     "", "", "", ""⟩]

/-- C3 witness: id membership and verbatim subtree recovery for all four
moves on the concrete forest `c3Forest`. -/
theorem C3_identity_preservation_witness :
    ("m" ∈ idsOfList (action_indent c3Forest [] 1).forest) ∧
    ("m" ∈ idsOfList (action_outdent c3Forest [1] 0).forest) ∧
    ("m" ∈ idsOfList (action_move_up c3Forest [] 1).forest) ∧
    ("m" ∈ idsOfList (action_move_down c3Forest [] 0).forest) ∧
    (∃ qp qi, selNode (action_indent c3Forest [] 1).forest qp qi =
      some ⟨"b", "B", "beat",
        [⟨"c", "C", "chapter",
          [⟨"m", "M", "milestone", [], "pl", "", "", ""⟩], "", "", "", ""⟩],
        "", "", "", ""⟩) ∧
    (∃ qp qi, selNode (action_outdent c3Forest [1] 0).forest qp qi =
      some ⟨"c", "C", "chapter",
        [⟨"m", "M", "milestone", [], "pl", "", "", ""⟩], "", "", "", ""⟩) ∧
    (∃ qp qi, selNode (action_move_up c3Forest [] 1).forest qp qi =
      some ⟨"b", "B", "beat",
        [⟨"c", "C", "chapter",
          [⟨"m", "M", "milestone", [], "pl", "", "", ""⟩], "", "", "", ""⟩],
        "", "", "", ""⟩) ∧
    (∃ qp qi, selNode (action_move_down c3Forest [] 0).forest qp qi =
      some ⟨"a", "A", "beat", [], "", "", "", ""⟩) := by
  have hm : "m" ∈ idsOfList c3Forest := by
    simp [c3Forest, idsOfList]
  refine ⟨C3_identity_preservation.1 c3Forest [] 1 "m" hm,
    C3_identity_preservation.2.1 c3Forest [1] 0 "m" hm,
    C3_identity_preservation.2.2.1 c3Forest [] 1 "m" hm,
    C3_identity_preservation.2.2.2.1 c3Forest [] 0 "m" hm,
    C3_identity_preservation.2.2.2.2.1 c3Forest [] 1 _ rfl,
    C3_identity_preservation.2.2.2.2.2.1 c3Forest [1] 0 _ rfl,
    C3_identity_preservation.2.2.2.2.2.2.1 c3Forest [] 1 _ rfl,
    C3_identity_preservation.2.2.2.2.2.2.2 c3Forest [] 0 _ rfl⟩

/-- Bool check that every node's id is truthy in Python's sense
(a non-empty string). -/
def idsTruthy : List OutlineItem → Bool
  | [] => true
  | ⟨idv, _, _, cs, _, _, _, _⟩ :: rest =>
    decide (idv ≠ "") && idsTruthy cs && idsTruthy rest

/-- C4 (amended): hydrating the serialized payload reproduces the tree —
ids, titles, kinds, children order and the four milestone fields — for
every tree whose node ids are all non-empty; no fresh id is drawn (the
counter is returned unchanged).  (`data.get("id") or str(uuid.uuid4())`
would regenerate an empty id, so the empty-id tree does not round-trip.) -/
theorem C4_round_trip (gen : Nat → String) :
    ∀ (ts : List OutlineItem), idsTruthy ts = true →
      ∀ n, hydrateList gen (serializeList ts) n = (ts, n) := by
  intro ts
  induction ts using serializeList.induct with
  | case1 =>
    intro _ n
    simp [serializeList, hydrateList]
  | case2 idv t k cs p s c th rest ihc ihr =>
    intro ht n
    rw [idsTruthy] at ht
    obtain ⟨⟨h1, h2⟩, h3⟩ : (idv ≠ "" ∧ idsTruthy cs = true) ∧ idsTruthy rest = true := by
      simpa [Bool.and_eq_true] using ht
    rw [serializeList, hydrateList]
    simp only [if_neg h1]
    rw [ihc h2 n, ihr h3 n]
    simp

/-- C4 counterexample: a node whose stored id is the empty string does
not round-trip — `data.get("id") or str(uuid.uuid4())` treats the falsy
empty string like a missing id and draws a fresh one. -/
theorem C4_counterexample :
    (hydrateList (fun _ => "fresh-uuid")
      (serializeList [⟨"", "T", "beat", [], "", "", "", ""⟩]) 0).1
      ≠ [⟨"", "T", "beat", [], "", "", "", ""⟩] := by
  have h : (hydrateList (fun _ => "fresh-uuid")
      (serializeList [⟨"", "T", "beat", [], "", "", "", ""⟩]) 0).1
      = [⟨"fresh-uuid", "T", "beat", [], "", "", "", ""⟩] := by
    simp [serializeList, hydrateList]
  rw [h]
  simp

/-- C4 witness: a concrete two-level tree with non-empty ids round-trips
exactly, at counter 5, under an arbitrary concrete generator. -/
theorem C4_round_trip_witness :
    hydrateList (fun _ => "g") (serializeList
      [⟨"x", "X", "beat",
        [⟨"y", "Y", "chapter", [], "", "", "", ""⟩], "", "", "", ""⟩]) 5
    = ([⟨"x", "X", "beat",
        [⟨"y", "Y", "chapter", [], "", "", "", ""⟩], "", "", "", ""⟩], 5) :=
  C4_round_trip (fun _ => "g")
    [⟨"x", "X", "beat",
      [⟨"y", "Y", "chapter", [], "", "", "", ""⟩], "", "", "", ""⟩]
    (by simp [idsTruthy]) 5

/-- C5 (amended): `_hydrate` accepts records missing the milestone fields
(each defaults to the empty string), and a missing id — or the falsy
empty id — is replaced with a fresh generated id, so hydration never
fails and every node receives an id.  (Duplicate stored ids, however, are
kept as-is: see the counterexample.) -/
theorem C5_hydrate_graceful :
    (∀ (gen : Nat → String) (n : Nat) (jid jt jk : Option String) (jcs : List JRec),
      (hydrateList gen [⟨jid, jt, jk, none, none, none, none, jcs⟩] n).1.map
          (fun it => (it.plot, it.subplot, it.character, it.theme))
        = [("", "", "", "")]) ∧
    (∀ (gen : Nat → String) (n : Nat) (jt jk jp js jc jth : Option String)
        (jcs : List JRec),
      (hydrateList gen [⟨none, jt, jk, jp, js, jc, jth, jcs⟩] n).1.map
          (fun it => it.id) = [gen n]) ∧
    (∀ (gen : Nat → String) (n : Nat) (jt jk jp js jc jth : Option String)
        (jcs : List JRec),
      (hydrateList gen [⟨some "", jt, jk, jp, js, jc, jth, jcs⟩] n).1.map
          (fun it => it.id) = [gen n]) := by
  refine ⟨?_, ?_, ?_⟩
  · intro gen n jid jt jk jcs
    cases jid with
    | none => simp [hydrateList]
    | some s =>
      by_cases hs : s = "" <;> simp [hydrateList, hs]
  · intro gen n jt jk jp js jc jth jcs
    simp [hydrateList]
  · intro gen n jt jk jp js jc jth jcs
    simp [hydrateList]

/-- C5 counterexample: two records sharing the stored id "x" hydrate to
two nodes both with id "x" — `_hydrate` never checks for duplicates, so
the loaded tree violates id uniqueness. -/
theorem C5_counterexample :
    idsOfList (hydrateList (fun _ => "fresh")
      [⟨some "x", some "T", some "beat", none, none, none, none, []⟩,
       ⟨some "x", some "T", some "beat", none, none, none, none, []⟩] 0).1
      = ["x", "x"] ∧
    ¬ (idsOfList (hydrateList (fun _ => "fresh")
      [⟨some "x", some "T", some "beat", none, none, none, none, []⟩,
       ⟨some "x", some "T", some "beat", none, none, none, none, []⟩] 0).1).Nodup := by
  have h : idsOfList (hydrateList (fun _ => "fresh")
      [⟨some "x", some "T", some "beat", none, none, none, none, []⟩,
       ⟨some "x", some "T", some "beat", none, none, none, none, []⟩] 0).1
      = ["x", "x"] := by
    simp [hydrateList, idsOfList]
  refine ⟨h, ?_⟩
  rw [h]
  simp

/-- The row `_rebuild_grid` adds for one item: previews of the four
milestone fields for a milestone, four empty strings otherwise. -/
def rowOf (item : OutlineItem) : GridRow :=
  if item.kind = "milestone" then
    (preview_fn item.plot 36, preview_fn item.subplot 36,
     preview_fn item.character 36, preview_fn item.theme 36)
  else ("", "", "", "")

theorem grid_foldl_spec (l : List OutlineItem) :
    ∀ (a : List String) (b : List GridRow),
      l.foldl (fun acc item =>
        (acc.1 ++ [item.id],
         acc.2 ++ [if item.kind = "milestone" then
             (preview_fn item.plot 36, preview_fn item.subplot 36,
              preview_fn item.character 36, preview_fn item.theme 36)
           else ("", "", "", "")])) (a, b)
      = (a ++ l.map (fun it => it.id), b ++ l.map rowOf) := by
  induction l with
  | nil => intro a b; simp
  | cons it rest ih =>
    intro a b
    simp only [List.foldl_cons, List.map_cons]
    rw [ih]
    simp [rowOf]

theorem flattenList_map_id (l : List OutlineItem) :
    (flattenList l).map (fun it => it.id) = idsOfList l := by
  induction l using flattenList.induct with
  | case1 => simp [flattenList, idsOfList]
  | case2 idv t k cs p s c th rest ihc ihr =>
    rw [flattenList, idsOfList]
    simp only [List.map_cons, List.map_append]
    rw [ihc, ihr]

/-- C9 (amended): `_rebuild_grid` walks `_flatten()` — one entry per
non-root node, in pre-order document order, deterministically — storing
each node's id in `_grid_index` (so the id column equals the pre-order
id sequence) and one row per node: four blanks for non-milestones, and
PREVIEWS of plot/subplot/character/theme for milestones (newlines
replaced by spaces, stripped, truncated to 36 characters with an
ellipsis).  The preview equals the raw field whenever the field is
already a clean single-line string of at most 36 characters. -/
theorem C9_board_projection :
    (∀ forest : List OutlineItem,
      rebuild_grid forest =
        ((flattenList forest).map (fun it => it.id),
         (flattenList forest).map rowOf)) ∧
    (∀ forest : List OutlineItem,
      (rebuild_grid forest).1 = idsOfList forest) ∧
    (∀ it : OutlineItem, it.kind ≠ "milestone" → rowOf it = ("", "", "", "")) ∧
    (∀ s : String,
      stripChars (s.toList.map fun ch => if ch = '\n' then ' ' else ch) = s.toList →
      s.length ≤ 36 → preview_fn s 36 = s) := by
  refine ⟨?_, ?_, ?_, ?_⟩
  · intro forest
    rw [rebuild_grid, grid_foldl_spec]
    simp
  · intro forest
    rw [rebuild_grid, grid_foldl_spec]
    simp [flattenList_map_id]
  · intro it hk
    rw [rowOf, if_neg hk]
  · intro s hstrip hlen
    rw [preview_fn]
    by_cases hs : s = ""
    · rw [if_pos hs, hs]
    · rw [if_neg hs]
      simp only [hstrip]
      have hl : s.toList.length ≤ 36 := by
        have heq : s.toList.length = s.length := rfl
        omega
      rw [if_pos hl]
      cases s
      rfl

/-- C9 counterexample: a milestone whose plot is "a\nb" gets the preview
"a b" in its row, not its plot field — rows do not carry the milestone
metadata verbatim. -/
theorem C9_counterexample :
    (rebuild_grid
      [⟨"b", "B", "beat",
        [⟨"c", "C", "chapter",
          [⟨"m", "M", "milestone", [], "a\nb", "", "", ""⟩], "", "", "", ""⟩],
        "", "", "", ""⟩]).2
      = [("", "", "", ""), ("", "", "", ""), ("a b", "", "", "")] ∧
    (rebuild_grid
      [⟨"b", "B", "beat",
        [⟨"c", "C", "chapter",
          [⟨"m", "M", "milestone", [], "a\nb", "", "", ""⟩], "", "", "", ""⟩],
        "", "", "", ""⟩]).2
      ≠ [("", "", "", ""), ("", "", "", ""), ("a\nb", "", "", "")] := by
  have hf : flattenList
      [⟨"b", "B", "beat",
        [⟨"c", "C", "chapter",
          [⟨"m", "M", "milestone", [], "a\nb", "", "", ""⟩], "", "", "", ""⟩],
        "", "", "", ""⟩]
      = [⟨"b", "B", "beat",
          [⟨"c", "C", "chapter",
            [⟨"m", "M", "milestone", [], "a\nb", "", "", ""⟩], "", "", "", ""⟩],
          "", "", "", ""⟩,
         ⟨"c", "C", "chapter",
           [⟨"m", "M", "milestone", [], "a\nb", "", "", ""⟩], "", "", "", ""⟩,
         ⟨"m", "M", "milestone", [], "a\nb", "", "", ""⟩] := by
    simp [flattenList]
  constructor
  · rw [rebuild_grid, hf]
    rfl
  · rw [rebuild_grid, hf]
    intro hcontra
    have := congrArg (fun l => l.get? 2) hcontra
    simp [stripChars, preview_fn] at this

/-- C9 witness: a non-milestone row is blank, and a clean short plot is
shown verbatim. -/
theorem C9_board_projection_witness :
    rowOf ⟨"b", "B", "beat", [], "", "", "", ""⟩ = ("", "", "", "") ∧
    preview_fn "hello" 36 = "hello" :=
  ⟨C9_board_projection.2.2.1 ⟨"b", "B", "beat", [], "", "", "", ""⟩ (by decide),
   C9_board_projection.2.2.2 "hello" rfl (by decide)⟩
